import Mathlib

/-!
Verification of the helix session-queue and runner stream-protocol core.

The definitions below are a shallow embedding of the Go sources:
  - the session queue (ShiftSessionQueue, PushSessionQueue, loadSessionQueues)
    from the controller package;
  - the Ollama model-instance stream protocol (processInteraction,
    responseProcessor, emitStreamDone, errorSession, Stale, GetState, Stop)
    from api/pkg/runner/llm_ollama_model_instance.go.
Machine-level concerns (goroutines, channels, real time) are modelled by
explicit data: the subprocess behaviour of one request is an oracle value,
and instants are integers with 0 encoding the Go zero time.Time.
-/

namespace Helix

/-- Creator of an interaction, types.CreatorType: the data model admits
exactly the two constants user and system. -/
inductive Creator where
  | user
  | system
deriving DecidableEq, Repr

/-- One turn of a session (types.Interaction), restricted to the fields the
core reads. -/
structure Interaction where
  creator : Creator
  message : String
  finished : Bool
deriving DecidableEq, Repr

/-- A session (types.Session), restricted to the fields the queue core
reads: id, mode, type, model name, adapter (lora) directory and the ordered
interaction list.  Mode and type are the Go strings such as "Create" and
"Text". -/
structure Session where
  id : String
  mode : String
  type : String
  modelName : String
  loraDir : String
  interactions : List Interaction
deriving DecidableEq, Repr

/-- The filter used to shift work (types.SessionFilter).  The type carries
mode, type, model name and adapter (lora) directory; an empty string means
match-any. -/
structure SessionFilter where
  mode : String
  type : String
  modelName : String
  loraDir : String
deriving DecidableEq, Repr

/-- The per-session predicate of ShiftSessionQueue, written exactly as the
three continue-conditions of the Go loop: a session is skipped iff some
non-empty filter field differs from the session field.  The source checks
Mode, Type and ModelName only. -/
def matchesFilter (f : SessionFilter) (s : Session) : Bool :=
  if f.mode ≠ "" ∧ s.mode ≠ f.mode then false
  else if f.type ≠ "" ∧ s.type ≠ f.type then false
  else if f.modelName ≠ "" ∧ s.modelName ≠ f.modelName then false
  else true

/-- The filter predicate as the specification words it: mode, type, model
name AND adapter directory, empty meaning match-any.  Kept separate from
matchesFilter so the two can be compared. -/
def matchesFilterSpec (f : SessionFilter) (s : Session) : Bool :=
  if f.mode ≠ "" ∧ s.mode ≠ f.mode then false
  else if f.type ≠ "" ∧ s.type ≠ f.type then false
  else if f.modelName ≠ "" ∧ s.modelName ≠ f.modelName then false
  else if f.loraDir ≠ "" ∧ s.loraDir ≠ f.loraDir then false
  else true

/-- Controller.ShiftSessionQueue: scan head to tail, return the first
element accepted by matchesFilter together with the queue with exactly that
element removed (append of queue[:i] and queue[i+1:] in the source); return
none and the unchanged queue when nothing matches. -/
def shiftSessionQueue : List Session → SessionFilter → Option Session × List Session
  | [], _ => (none, [])
  | s :: rest, f =>
    if matchesFilter f s then (some s, rest)
    else
      let r := shiftSessionQueue rest f
      (r.1, s :: r.2)

/-- The loop body of Controller.PushSessionQueue: rebuild the queue,
substituting the pushed session for every element carrying its id, and
report whether any such element existed. -/
def pushLoop : List Session → Session → List Session × Bool
  | [], _ => ([], false)
  | e :: rest, s =>
    let r := pushLoop rest s
    if e.id = s.id then (s :: r.1, true) else (e :: r.1, r.2)

/-- Controller.PushSessionQueue: replace an already-queued session with the
same id in place; append to the tail when the id is new. -/
def pushSessionQueue (queue : List Session) (s : Session) : List Session :=
  let r := pushLoop queue s
  if r.2 then r.1 else r.1 ++ [s]

/-- The skip conditions of Controller.loadSessionQueues: a session is kept
iff its interaction list is non-empty and the latest interaction was not
created by the system. -/
def keepSession (s : Session) : Bool :=
  match s.interactions.getLast? with
  | none => false
  | some latest => if latest.creator = Creator.system then false else true

/-- Controller.loadSessionQueues: the store returns sessions in descending
recency; the Go loop walks the array from the last index down to 0 (that
is, in reversed order) appending every kept session. -/
def loadSessionQueues (sessions : List Session) : List Session :=
  (sessions.reverse).filter keepSession

/-! Basic lemmas about the queue operations. -/

theorem pushLoop_eq (queue : List Session) (s : Session) :
    pushLoop queue s =
      (queue.map (fun e => if e.id = s.id then s else e),
       queue.any (fun e => decide (e.id = s.id))) := by
  induction queue with
  | nil => simp [pushLoop]
  | cons e rest ih =>
    by_cases h : e.id = s.id
    · simp [pushLoop, ih, h]
    · simp [pushLoop, ih, h]

theorem map_replace_of_no_id (l : List Session) (s : Session)
    (h : ∀ e ∈ l, e.id ≠ s.id) :
    l.map (fun e => if e.id = s.id then s else e) = l := by
  induction l with
  | nil => simp
  | cons e rest ih =>
    have he : e.id ≠ s.id := h e (List.mem_cons_self e rest)
    simp only [List.map_cons, if_neg he]
    rw [ih (fun x hx => h x (List.mem_cons_of_mem e hx))]

theorem pushSessionQueue_append (queue : List Session) (s : Session)
    (h : ∀ e ∈ queue, e.id ≠ s.id) :
    pushSessionQueue queue s = queue ++ [s] := by
  have hany : queue.any (fun e => decide (e.id = s.id)) = false := by
    simp only [List.any_eq_false, decide_eq_true_eq]
    exact h
  simp only [pushSessionQueue, pushLoop_eq, hany]
  rw [map_replace_of_no_id queue s h]
  simp

theorem pushSessionQueue_replace (pre post : List Session) (x s : Session)
    (hx : x.id = s.id)
    (hpre : ∀ e ∈ pre, e.id ≠ s.id)
    (hpost : ∀ e ∈ post, e.id ≠ s.id) :
    pushSessionQueue (pre ++ x :: post) s = pre ++ s :: post := by
  have hany : (pre ++ x :: post).any (fun e => decide (e.id = s.id)) = true := by
    simp only [List.any_eq_true, decide_eq_true_eq]
    exact ⟨x, by simp, hx⟩
  simp only [pushSessionQueue, pushLoop_eq, hany, if_pos, List.map_append,
    List.map_cons, if_pos hx]
  rw [map_replace_of_no_id pre s hpre, map_replace_of_no_id post s hpost]

theorem shiftSessionQueue_none (q : List Session) (f : SessionFilter)
    (h : ∀ s ∈ q, matchesFilter f s = false) :
    shiftSessionQueue q f = (none, q) := by
  induction q with
  | nil => rfl
  | cons s rest ih =>
    have hs : matchesFilter f s = false := h s (List.mem_cons_self s rest)
    have hrest := ih (fun x hx => h x (List.mem_cons_of_mem s hx))
    simp [shiftSessionQueue, hs, hrest]

theorem shiftSessionQueue_spec (q : List Session) (f : SessionFilter) :
    match shiftSessionQueue q f with
    | (some s, q2) => ∃ pre post, q = pre ++ s :: post ∧ q2 = pre ++ post ∧
        matchesFilter f s = true ∧ ∀ x ∈ pre, matchesFilter f x = false
    | (none, q2) => q2 = q ∧ ∀ s ∈ q, matchesFilter f s = false := by
  induction q with
  | nil => simp [shiftSessionQueue]
  | cons s rest ih =>
    by_cases hs : matchesFilter f s = true
    · simp only [shiftSessionQueue, if_pos hs]
      exact ⟨[], rest, by simp, by simp, hs, by simp⟩
    · have hs' : matchesFilter f s = false := by
        cases hmf : matchesFilter f s
        · rfl
        · exact absurd hmf hs
      simp only [shiftSessionQueue, hs', Bool.false_eq_true, if_false]
      cases hr : shiftSessionQueue rest f with
      | mk found rest2 =>
        cases found with
        | some t =>
          rw [hr] at ih
          obtain ⟨pre, post, hq, hq2, hm, hpre⟩ := ih
          refine ⟨s :: pre, post, ?_, ?_, hm, ?_⟩
          · simp [hq]
          · simp [hq2]
          · intro x hx
            rcases List.mem_cons.mp hx with hx | hx
            · rw [hx]; exact hs'
            · exact hpre x hx
        | none =>
          rw [hr] at ih
          obtain ⟨hq2, hall⟩ := ih
          refine ⟨by simp [hq2], ?_⟩
          intro x hx
          rcases List.mem_cons.mp hx with hx | hx
          · rw [hx]; exact hs'
          · exact hall x hx

/-! The runner side: the stream protocol of OllamaInferenceModelInstance. -/

/-- One tool call or tool-call delta (openai.ToolCall), restricted to the
identifying id, the function name and the argument string. -/
structure ToolCall where
  id : String
  name : String
  arguments : String
deriving DecidableEq, Repr

/-- Token usage (types.Usage). -/
structure Usage where
  promptTokens : Int
  completionTokens : Int
  totalTokens : Int
  durationMs : Int
deriving DecidableEq, Repr

/-- The Go zero value of types.Usage. -/
def zeroUsage : Usage := ⟨0, 0, 0, 0⟩

/-- The two frame kinds: types.WorkerTaskResponseTypeStream and
types.WorkerTaskResponseTypeResult. -/
inductive FrameType where
  | stream
  | result
deriving DecidableEq, Repr

/-- One frame of the stream protocol (types.RunnerTaskResponse).  Fields a
Go construction site leaves unset carry the Go zero value: empty string,
false, empty list, zeroUsage. -/
structure RunnerTaskResponse where
  type : FrameType
  sessionID : String
  interactionID : String
  owner : String
  done : Bool
  message : String
  toolCalls : List ToolCall
  toolCallID : String
  usage : Usage
  error : String
deriving DecidableEq, Repr

/-- The runner-facing request (types.RunnerLLMInferenceRequest), restricted
to the fields the instance reads: routing ids and the stream flag of the
embedded chat-completion request. -/
structure InferenceRequest where
  sessionID : String
  interactionID : String
  owner : String
  stream : Bool
deriving DecidableEq, Repr

/-- OllamaInferenceModelInstance.responseProcessor: build the frame for one
chunk or for the final result; type is Result exactly when done. -/
def responseProcessor (req : InferenceRequest) (usage : Usage)
    (content : String) (toolCalls : List ToolCall) (toolCallID : String)
    (done : Bool) : RunnerTaskResponse :=
  ⟨if done then FrameType.result else FrameType.stream,
   req.sessionID, req.interactionID, req.owner, done, content, toolCalls,
   toolCallID, usage, ""⟩

/-- OllamaInferenceModelInstance.emitStreamDone: the stream-done frame.
The source sets Type, SessionID, Owner, Message and Done only, so the
interaction id is left at its zero value. -/
def emitStreamDone (req : InferenceRequest) : RunnerTaskResponse :=
  ⟨FrameType.stream, req.sessionID, "", req.owner, true, "", [], "",
   zeroUsage, ""⟩

/-- OllamaInferenceModelInstance.errorSession: the error report frame.  The
source sets Type, SessionID, Owner and Error only; in particular Done
stays at its zero value false. -/
def errorSession (req : InferenceRequest) (e : String) : RunnerTaskResponse :=
  ⟨FrameType.result, req.sessionID, "", req.owner, false, "", [], "",
   zeroUsage, e⟩

/-- One streamed delta from the subprocess: the content chunk and the
tool-call deltas of choice 0. -/
structure ChatDelta where
  content : String
  toolCalls : List ToolCall
deriving DecidableEq, Repr

/-- How a subprocess stream ends: the io.EOF sentinel or a receive error
with the given stringified cause. -/
inductive StreamEnd where
  | eof
  | recvError (e : String)
deriving DecidableEq, Repr

/-- The oracle describing what the subprocess does for one request: a
streaming call that fails immediately, a streaming call that yields deltas
and then ends, a blocking call that fails, or a blocking call that returns
a full message.  Goroutine interleavings aside, this is the only input the
frame sequence of processInteraction depends on. -/
inductive SubprocessBehavior where
  | streamStartError (e : String)
  | streaming (deltas : List ChatDelta) (ending : StreamEnd)
  | completionError (e : String)
  | completionOk (content : String) (toolCalls : List ToolCall)
      (toolCallID : String) (usage : Usage)
deriving DecidableEq, Repr

/-- Whether the oracle describes the streaming API call. -/
def SubprocessBehavior.isStreaming : SubprocessBehavior → Bool
  | .streamStartError _ => true
  | .streaming _ _ => true
  | .completionError _ => false
  | .completionOk _ _ _ _ => false

/-- A request and an oracle agree when the oracle describes the API call
the stream flag selects. -/
def consistent (req : InferenceRequest) (beh : SubprocessBehavior) : Prop :=
  req.stream = beh.isStreaming

/-- The Go map write toolCalls[tc.ID] = tc: replace the stored value for
the id wholesale, or add the pair when the id is new.  The association
list keeps first-insertion order; Go map iteration order is unspecified,
and the specification declares tool-call order not meaningful. -/
def upsertToolCall (acc : List ToolCall) (tc : ToolCall) : List ToolCall :=
  if acc.any (fun x => decide (x.id = tc.id)) then
    acc.map (fun x => if x.id = tc.id then tc else x)
  else acc ++ [tc]

/-- The streaming receive loop of processInteraction.  Per delta: extend
the content buffer, store each tool-call delta by id, emit a Stream frame
carrying the raw delta.  On EOF: emit the stream-done frame then the final
Result frame with the full buffer and the accumulated tool calls (usage is
left zero in the source).  On a receive error: emit the errorSession frame
and return the error. -/
def streamLoop (req : InferenceRequest) :
    List ChatDelta → StreamEnd → String → List ToolCall →
    List RunnerTaskResponse × Option String
  | [], StreamEnd.eof, buf, acc =>
    ([emitStreamDone req,
      responseProcessor req zeroUsage buf acc "" true], none)
  | [], StreamEnd.recvError e, _, _ =>
    ([errorSession req e], some e)
  | d :: rest, ending, buf, acc =>
    let acc2 := d.toolCalls.foldl upsertToolCall acc
    let r := streamLoop req rest ending (buf ++ d.content) acc2
    (responseProcessor req zeroUsage d.content d.toolCalls "" false :: r.1,
     r.2)

/-- The %w wrapping of the two API-call failures in processInteraction. -/
def apiErrorWrap (e : String) : String :=
  "failed to get response from inference API: " ++ e

/-- OllamaInferenceModelInstance.processInteraction: the frames emitted for
one request under the given oracle, and the error value returned.  The
branch is chosen by the stream flag as in the source; a request whose flag
contradicts the oracle is outside the model and yields no frames. -/
def processInteraction (req : InferenceRequest) (beh : SubprocessBehavior) :
    List RunnerTaskResponse × Option String :=
  match req.stream, beh with
  | true, SubprocessBehavior.streamStartError e => ([], some (apiErrorWrap e))
  | true, SubprocessBehavior.streaming deltas ending =>
    streamLoop req deltas ending "" []
  | false, SubprocessBehavior.completionError e => ([], some (apiErrorWrap e))
  | false, SubprocessBehavior.completionOk content toolCalls toolCallID usage =>
    ([emitStreamDone req,
      responseProcessor req usage content toolCalls toolCallID true], none)
  | _, _ => ([], none)

/-- The run-loop wrapper of processInteraction (the workCh arm of Run):
when processInteraction returns an error, the loop calls errorSession with
it, appending one more error frame to whatever was already emitted. -/
def handleRequest (req : InferenceRequest) (beh : SubprocessBehavior) :
    List RunnerTaskResponse :=
  let r := processInteraction req beh
  match r.2 with
  | none => r.1
  | some e => r.1 ++ [errorSession req e]

/-- Whether the oracle makes the request fail. -/
def behFails : SubprocessBehavior → Bool
  | SubprocessBehavior.streamStartError _ => true
  | SubprocessBehavior.streaming _ (StreamEnd.recvError _) => true
  | SubprocessBehavior.completionError _ => true
  | _ => false

/-- The stringified cause the error frames of a failing request carry: a
mid-stream receive error is reported as is, the two API-call failures are
reported through the %w wrap. -/
def behCause : SubprocessBehavior → String
  | SubprocessBehavior.streamStartError e => apiErrorWrap e
  | SubprocessBehavior.streaming _ (StreamEnd.recvError e) => e
  | SubprocessBehavior.completionError e => apiErrorWrap e
  | _ => ""

/-- How many error Result frames a failing request produces: a mid-stream
receive error is reported twice (once inside processInteraction, once by
the run loop), the API-call failures once. -/
def errFrameCount : SubprocessBehavior → Nat
  | SubprocessBehavior.streaming _ (StreamEnd.recvError _) => 2
  | _ => 1

/-! The model-instance lifecycle: staleness and Stop. -/

/-- The state of one OllamaInferenceModelInstance that Stale, GetState and
Stop read.  Instants and durations are integers (nanoseconds, say); the
integer 0 encodes the Go zero time.Time, matching time.Time.IsZero.
currentCommand is the pid of the launched subprocess, none when Run never
started one; processAlive records whether that subprocess is still
running. -/
structure OllamaInferenceModelInstance where
  lastActivity : Int
  instanceTTL : Int
  currentCommand : Option Int
  processAlive : Bool
deriving DecidableEq, Repr

/-- OllamaInferenceModelInstance.Stale: time.Since(lastActivity) compared
to the configured TTL, with no special case for the zero value. -/
def OllamaInferenceModelInstance.Stale
    (i : OllamaInferenceModelInstance) (now : Int) : Bool :=
  now - i.lastActivity > i.instanceTTL

/-- The stale field computed inside OllamaInferenceModelInstance.GetState:
false at the zero value of lastActivity, otherwise the TTL comparison. -/
def OllamaInferenceModelInstance.getStateStale
    (i : OllamaInferenceModelInstance) (now : Int) : Bool :=
  if i.lastActivity = 0 then false
  else if now - i.lastActivity > i.instanceTTL then true
  else false

/-- Modelled from the spec: killProcessTree is called by Stop but is not
among the provided sources.  Per the specification, a tree-kill terminates
the process and all its descendants and Stop is idempotent relative to
already-dead processes, so the kill reports no error whether or not the
process is still alive. -/
def killProcessTree (alive : Bool) : Option String :=
  match alive with
  | true => none
  | false => none

/-- OllamaInferenceModelInstance.Stop: error when no subprocess was ever
started; otherwise tree-kill the child pid, propagating a kill error, then
close the work channel and cancel the context. -/
def OllamaInferenceModelInstance.Stop
    (i : OllamaInferenceModelInstance) : Except String Unit :=
  match i.currentCommand with
  | none => Except.error "no Ollama process to stop"
  | some _ =>
    match killProcessTree i.processAlive with
    | some e => Except.error e
    | none => Except.ok ()

/-! Lemmas about the stream loop. -/

/-- The Stream frame emitted for one delta. -/
def deltaFrame (req : InferenceRequest) (d : ChatDelta) : RunnerTaskResponse :=
  responseProcessor req zeroUsage d.content d.toolCalls "" false

/-- The buffer after consuming the deltas. -/
def finalBuf (buf : String) (deltas : List ChatDelta) : String :=
  deltas.foldl (fun b d => b ++ d.content) buf

/-- The tool-call accumulator after consuming the deltas. -/
def finalAcc (acc : List ToolCall) (deltas : List ChatDelta) : List ToolCall :=
  deltas.foldl (fun a d => d.toolCalls.foldl upsertToolCall a) acc

theorem streamLoop_recvError (req : InferenceRequest) (e : String) :
    ∀ (deltas : List ChatDelta) (buf : String) (acc : List ToolCall),
    streamLoop req deltas (StreamEnd.recvError e) buf acc =
      (deltas.map (deltaFrame req) ++ [errorSession req e], some e) := by
  intro deltas
  induction deltas with
  | nil => intro buf acc; rfl
  | cons d rest ih =>
    intro buf acc
    simp [streamLoop, ih, deltaFrame]

theorem streamLoop_eof (req : InferenceRequest) :
    ∀ (deltas : List ChatDelta) (buf : String) (acc : List ToolCall),
    streamLoop req deltas StreamEnd.eof buf acc =
      (deltas.map (deltaFrame req) ++
        [emitStreamDone req,
         responseProcessor req zeroUsage (finalBuf buf deltas)
           (finalAcc acc deltas) "" true], none) := by
  intro deltas
  induction deltas with
  | nil => intro buf acc; rfl
  | cons d rest ih =>
    intro buf acc
    simp [streamLoop, ih, deltaFrame, finalBuf, finalAcc]

theorem deltaFrame_type (req : InferenceRequest) (d : ChatDelta) :
    (deltaFrame req d).type = FrameType.stream := rfl

theorem deltaFrame_done (req : InferenceRequest) (d : ChatDelta) :
    (deltaFrame req d).done = false := rfl

/-- Splitting off the stream-typed frames of a delta prefix followed by
result frames: the filter keeps exactly the prefix. -/
theorem filter_stream_deltas (req : InferenceRequest)
    (deltas : List ChatDelta) (tail : List RunnerTaskResponse)
    (htail : ∀ f ∈ tail, f.type = FrameType.result) :
    (deltas.map (deltaFrame req) ++ tail).filter
        (fun f => decide (f.type = FrameType.stream)) =
      deltas.map (deltaFrame req) := by
  induction deltas with
  | nil =>
    simp only [List.map_nil, List.nil_append]
    apply List.filter_eq_nil_iff.mpr
    intro f hf
    simp [htail f hf]
  | cons d rest ih =>
    simp [List.filter_cons, deltaFrame_type, ih]

/-! Concrete fixtures for examples and witnesses. -/

/-- A pending user interaction. -/
def userTurn : Interaction := ⟨Creator.user, "hi", false⟩

/-- A finished system interaction. -/
def systemTurn : Interaction := ⟨Creator.system, "hello there", true⟩

/-- A Create/Text session. -/
def sessA : Session := ⟨"a", "Create", "Text", "m1", "", [userTurn]⟩

/-- A Create/Image session. -/
def sessB : Session := ⟨"b", "Create", "Image", "m2", "", [userTurn]⟩

/-- Another Create/Text session. -/
def sessC : Session := ⟨"c", "Create", "Text", "m3", "", [userTurn]⟩

/-- A queued session with id x. -/
def sessX : Session := ⟨"x", "Create", "Text", "m1", "", [userTurn]⟩

/-- The same session after a user edit: same id, new content. -/
def sessX2 : Session := ⟨"x", "Create", "Text", "m1", "", [⟨Creator.user, "hi again", false⟩]⟩

/-- A session carrying an adapter directory. -/
def sessLora : Session := ⟨"l", "Create", "Text", "m1", "dir-x", [userTurn]⟩

/-- A filter selecting Text sessions only. -/
def fText : SessionFilter := ⟨"", "Text", "", ""⟩

/-- A filter whose only specified field is the adapter directory. -/
def fLora : SessionFilter := ⟨"", "", "", "dir-y"⟩

/-- The trailing-interaction predicate as the claim words it: the
interaction list is non-empty and its last element was created by the
user. -/
def lastUser (s : Session) : Bool :=
  match s.interactions.getLast? with
  | none => false
  | some latest => decide (latest.creator = Creator.user)

theorem keepSession_eq_lastUser (s : Session) :
    keepSession s = (decide (s.interactions ≠ []) && lastUser s) := by
  rcases List.eq_nil_or_concat s.interactions with h | ⟨l, a, h⟩
  · simp [keepSession, lastUser, h]
  · simp only [keepSession, lastUser, h, List.concat_eq_append,
      List.getLast?_concat]
    cases a.creator <;> simp

/-- C4.  Pushing a session whose id is already queued replaces that entry
in place, keeping its position and every other entry; pushing a session
with a fresh id appends it to the tail. -/
theorem push_dedup_preserves_position (pre post : List Session) (x s : Session)
    (hnodup : ((pre ++ x :: post).map Session.id).Nodup)
    (hx : x.id = s.id) :
    pushSessionQueue (pre ++ x :: post) s = pre ++ s :: post ∧
    (∀ (q : List Session), (∀ e ∈ q, e.id ≠ s.id) →
      pushSessionQueue q s = q ++ [s]) := by
  constructor
  · have h1 : (pre.map Session.id).Nodup ∧
        ((x :: post).map Session.id).Nodup ∧
        (pre.map Session.id).Disjoint ((x :: post).map Session.id) := by
      rw [← List.nodup_append]
      simpa using hnodup
    have hpre : ∀ e ∈ pre, e.id ≠ s.id := by
      intro e he heq
      have hmem : e.id ∈ pre.map Session.id := List.mem_map_of_mem Session.id he
      have hmem2 : e.id ∈ (x :: post).map Session.id := by
        rw [heq, ← hx]
        simp
      exact h1.2.2 hmem hmem2
    have hpost : ∀ e ∈ post, e.id ≠ s.id := by
      have h3 := h1.2.1
      rw [List.map_cons, List.nodup_cons] at h3
      intro e he heq
      exact h3.1 (List.mem_map.mpr ⟨e, he, heq.trans hx.symm⟩)
    exact pushSessionQueue_replace pre post x s hx hpre hpost
  · intro q h
    exact pushSessionQueue_append q s h

/-- C4 witness: pushing the edited session with id x into the queue
[A, X, B] yields [A, X2, B], keeping the position of X. -/
theorem push_dedup_preserves_position_witness :
    pushSessionQueue [sessA, sessX, sessB] sessX2 = [sessA, sessX2, sessB] :=
  (push_dedup_preserves_position [sessA] [sessB] sessX sessX2
    (by decide) (by decide)).1

/-- C5 (amended).  Shift scans head to tail and returns the first session
accepted by the source filter predicate, which compares mode, type and
model name (the adapter directory is ignored), removing exactly that
element; a miss returns none.  The concrete clauses show FIFO among
matches: on [A(Text), B(Image), C(Text)] a Text shift returns A and a
second shift on the remainder returns C. -/
theorem shift_first_match (q : List Session) (f : SessionFilter) :
    (match shiftSessionQueue q f with
     | (some s, q2) => ∃ pre post, q = pre ++ s :: post ∧ q2 = pre ++ post ∧
         matchesFilter f s = true ∧ ∀ x ∈ pre, matchesFilter f x = false
     | (none, q2) => q2 = q ∧ ∀ s ∈ q, matchesFilter f s = false) ∧
    shiftSessionQueue [sessA, sessB, sessC] fText = (some sessA, [sessB, sessC]) ∧
    shiftSessionQueue [sessB, sessC] fText = (some sessC, [sessB]) :=
  ⟨shiftSessionQueue_spec q f, by decide, by decide⟩

/-- C5 counterexample: a filter whose only specified field is the adapter
directory still shifts a session with a different adapter directory, so
the claimed four-field matching does not hold on the code. -/
theorem shift_ignores_adapter_dir :
    shiftSessionQueue [sessLora] fLora = (some sessLora, []) ∧
    matchesFilterSpec fLora sessLora = false := by
  constructor
  · decide
  · decide

/-- C6.  When no queued session is accepted by the filter, Shift returns
none and leaves the queue exactly as it was. -/
theorem shift_miss_leaves_queue (q : List Session) (f : SessionFilter)
    (h : ∀ s ∈ q, matchesFilter f s = false) :
    shiftSessionQueue q f = (none, q) :=
  shiftSessionQueue_none q f h

/-- C6 witness: an Image-only queue misses a Text filter and is left
unchanged. -/
theorem shift_miss_leaves_queue_witness :
    shiftSessionQueue [sessB] fText = (none, [sessB]) :=
  shift_miss_leaves_queue [sessB] fText (by decide)

/-- Pending session with a trailing user turn, older. -/
def sessOne : Session := ⟨"s1", "Create", "Text", "m1", "", [userTurn]⟩

/-- Idle session whose trailing interaction is a system response. -/
def sessTwo : Session := ⟨"s2", "Create", "Text", "m1", "", [userTurn, systemTurn]⟩

/-- Pending session with a trailing user turn, newer. -/
def sessThree : Session := ⟨"s3", "Create", "Text", "m1", "", [userTurn]⟩

/-- C7.  Rebuild keeps exactly the store sessions whose interaction list
is non-empty and whose trailing interaction was created by the user, in
reversed (oldest-first) order; on the store answer [s1(User), s2(System),
s3(User)] (descending recency) the queue becomes [s3, s1]. -/
theorem rebuild_keeps_pending_reversed (sessions : List Session) :
    loadSessionQueues sessions =
      (sessions.filter
        (fun s => decide (s.interactions ≠ []) && lastUser s)).reverse ∧
    loadSessionQueues [sessOne, sessTwo, sessThree] = [sessThree, sessOne] := by
  constructor
  · unfold loadSessionQueues
    rw [List.filter_reverse]
    rw [List.filter_congr (fun s _ => keepSession_eq_lastUser s)]
  · decide

/-- Replacing by id does not change the id list of a queue. -/
theorem map_id_replace (q : List Session) (s : Session) :
    (q.map (fun e => if e.id = s.id then s else e)).map Session.id =
      q.map Session.id := by
  induction q with
  | nil => rfl
  | cons e rest ih =>
    by_cases h : e.id = s.id
    · simp [h, ih]
    · simp [h, ih]

/-- C10.  A queue with pairwise distinct session ids keeps distinct ids
under any Push and under any Shift. -/
theorem queue_ids_distinct_preserved (q : List Session) (s : Session)
    (f : SessionFilter) (h : (q.map Session.id).Nodup) :
    ((pushSessionQueue q s).map Session.id).Nodup ∧
    (((shiftSessionQueue q f).2).map Session.id).Nodup := by
  constructor
  · have hmain : pushSessionQueue q s =
        if q.any (fun e => decide (e.id = s.id)) = true then
          q.map (fun e => if e.id = s.id then s else e)
        else q.map (fun e => if e.id = s.id then s else e) ++ [s] := by
      simp only [pushSessionQueue, pushLoop_eq]
    by_cases hany : q.any (fun e => decide (e.id = s.id)) = true
    · rw [hmain, if_pos hany, map_id_replace]
      exact h
    · have hnot : ∀ e ∈ q, e.id ≠ s.id := fun e he heq =>
        hany (List.any_eq_true.mpr ⟨e, he, by simp [heq]⟩)
      rw [hmain, if_neg hany, List.map_append, map_id_replace]
      rw [List.nodup_append]
      refine ⟨h, List.nodup_singleton s.id, ?_⟩
      intro a ha hb
      rw [List.map_singleton, List.mem_singleton] at hb
      obtain ⟨e, he, hae⟩ := List.mem_map.mp ha
      exact hnot e he (hae.trans hb)
  · have hs := shiftSessionQueue_spec q f
    cases hr : shiftSessionQueue q f with
    | mk found q2 =>
      rw [hr] at hs
      cases found with
      | none =>
        obtain ⟨hq2, _⟩ := hs
        simpa [hq2] using h
      | some t =>
        obtain ⟨pre, post, hq, hq2, _, _⟩ := hs
        have hsub : (pre ++ post).Sublist (pre ++ t :: post) :=
          (List.sublist_cons_self t post).append_left pre
        have hsub2 : ((pre ++ post).map Session.id).Sublist
            ((pre ++ t :: post).map Session.id) := hsub.map Session.id
        simp only [hq2]
        exact hsub2.nodup (hq ▸ h)

/-- C10 witness: a concrete distinct-id queue stays distinct under a push
of an edited session and under a Text shift. -/
theorem queue_ids_distinct_preserved_witness :
    ((pushSessionQueue [sessA, sessB] sessX2).map Session.id).Nodup ∧
    (((shiftSessionQueue [sessA, sessB] fText).2).map Session.id).Nodup :=
  queue_ids_distinct_preserved [sessA, sessB] sessX2 fText (by decide)

/-! Closed forms of handleRequest, one per oracle shape. -/

theorem handleRequest_streamStartError (req : InferenceRequest) (e : String)
    (hs : req.stream = true) :
    handleRequest req (SubprocessBehavior.streamStartError e) =
      [errorSession req (apiErrorWrap e)] := by
  simp [handleRequest, processInteraction, hs]

theorem handleRequest_completionError (req : InferenceRequest) (e : String)
    (hs : req.stream = false) :
    handleRequest req (SubprocessBehavior.completionError e) =
      [errorSession req (apiErrorWrap e)] := by
  simp [handleRequest, processInteraction, hs]

theorem handleRequest_recvError (req : InferenceRequest)
    (deltas : List ChatDelta) (e : String) (hs : req.stream = true) :
    handleRequest req (SubprocessBehavior.streaming deltas (StreamEnd.recvError e)) =
      deltas.map (deltaFrame req) ++ [errorSession req e, errorSession req e] := by
  simp [handleRequest, processInteraction, hs, streamLoop_recvError]

theorem handleRequest_eof (req : InferenceRequest) (deltas : List ChatDelta)
    (hs : req.stream = true) :
    handleRequest req (SubprocessBehavior.streaming deltas StreamEnd.eof) =
      deltas.map (deltaFrame req) ++
        [emitStreamDone req,
         responseProcessor req zeroUsage (finalBuf "" deltas)
           (finalAcc [] deltas) "" true] := by
  simp [handleRequest, processInteraction, hs, streamLoop_eof]

theorem handleRequest_completionOk (req : InferenceRequest) (content : String)
    (toolCalls : List ToolCall) (toolCallID : String) (usage : Usage)
    (hs : req.stream = false) :
    handleRequest req
        (SubprocessBehavior.completionOk content toolCalls toolCallID usage) =
      [emitStreamDone req,
       responseProcessor req usage content toolCalls toolCallID true] := by
  simp [handleRequest, processInteraction, hs]

/-- Result-typed tails pass the Result filter whole while the delta prefix
is dropped. -/
theorem filter_result_deltas (req : InferenceRequest)
    (deltas : List ChatDelta) (tail : List RunnerTaskResponse)
    (htail : ∀ f ∈ tail, f.type = FrameType.result) :
    (deltas.map (deltaFrame req) ++ tail).filter
        (fun f => decide (f.type = FrameType.result)) = tail := by
  induction deltas with
  | nil =>
    simp only [List.map_nil, List.nil_append]
    apply List.filter_eq_self.mpr
    intro f hf
    simp [htail f hf]
  | cons d rest ih =>
    simp [List.filter_cons, deltaFrame_type, ih]

/-! Concrete requests and oracles. -/

/-- A streaming request. -/
def reqStream : InferenceRequest := ⟨"sess-1", "int-1", "owner-1", true⟩

/-- A non-streaming request. -/
def reqSync : InferenceRequest := ⟨"sess-2", "int-2", "owner-2", false⟩

/-- A stream that fails after one delta. -/
def behMidErr : SubprocessBehavior :=
  SubprocessBehavior.streaming [⟨"he", []⟩] (StreamEnd.recvError "boom")

/-- A blocking call that fails. -/
def behOneErr : SubprocessBehavior :=
  SubprocessBehavior.completionError "boom"

/-- The scenario S1 stream: deltas he, llo then EOF. -/
def behS1 : SubprocessBehavior :=
  SubprocessBehavior.streaming [⟨"he", []⟩, ⟨"llo", []⟩] StreamEnd.eof

/-- C1 counterexample: a mid-stream receive error yields two Result frames
for the request, and every frame of the request carries done=false, against
the claimed single Result frame with done=true. -/
theorem single_error_frame_counterexample :
    ((handleRequest reqStream behMidErr).filter
        (fun f => decide (f.type = FrameType.result))).length = 2 ∧
    ∀ f ∈ handleRequest reqStream behMidErr, f.done = false := by
  decide

/-- C1 (amended).  On a failing request every emitted Result frame is the
errorSession frame: type=Result, done=false (the source leaves Done unset)
and error=the stringified cause; the error frames come after all Stream
frames and close the sequence; there is exactly one of them except after a
mid-stream receive error, which is reported twice (once inside
processInteraction, once by the run loop). -/
theorem error_emits_result_frames (req : InferenceRequest)
    (beh : SubprocessBehavior) (hc : consistent req beh)
    (hf : behFails beh = true) :
    (handleRequest req beh).filter (fun f => decide (f.type = FrameType.result)) =
      List.replicate (errFrameCount beh) (errorSession req (behCause beh)) ∧
    handleRequest req beh =
      (handleRequest req beh).filter (fun f => decide (f.type = FrameType.stream)) ++
        List.replicate (errFrameCount beh) (errorSession req (behCause beh)) ∧
    (errorSession req (behCause beh)).type = FrameType.result ∧
    (errorSession req (behCause beh)).done = false ∧
    (errorSession req (behCause beh)).error = behCause beh := by
  cases beh with
  | streamStartError e =>
    have hs : req.stream = true := hc
    rw [handleRequest_streamStartError req e hs]
    refine ⟨?_, ?_, rfl, rfl, rfl⟩
    · simp [behCause, errFrameCount, List.filter, errorSession]
    · simp [behCause, errFrameCount, List.filter, errorSession]
  | streaming deltas ending =>
    have hs : req.stream = true := hc
    cases ending with
    | eof => simp [behFails] at hf
    | recvError e =>
      rw [handleRequest_recvError req deltas e hs]
      have htail : ∀ f ∈ [errorSession req e, errorSession req e],
          f.type = FrameType.result := by
        intro f hf2
        rcases List.mem_cons.mp hf2 with h | h
        · rw [h]; rfl
        · rw [List.mem_singleton.mp h]; rfl
      refine ⟨?_, ?_, rfl, rfl, rfl⟩
      · rw [filter_result_deltas req deltas _ htail]
        simp [behCause, errFrameCount, List.replicate]
      · rw [filter_stream_deltas req deltas _ htail]
        simp [behCause, errFrameCount, List.replicate]
  | completionError e =>
    have hs : req.stream = false := hc
    rw [handleRequest_completionError req e hs]
    refine ⟨?_, ?_, rfl, rfl, rfl⟩
    · simp [behCause, errFrameCount, List.filter, errorSession]
    · simp [behCause, errFrameCount, List.filter, errorSession]
  | completionOk content toolCalls toolCallID usage =>
    simp [behFails] at hf

/-- C1 witness: the failing blocking request emits exactly the single
errorSession frame. -/
theorem error_emits_result_frames_witness :
    (handleRequest reqSync behOneErr).filter
        (fun f => decide (f.type = FrameType.result)) =
      List.replicate (errFrameCount behOneErr)
        (errorSession reqSync (behCause behOneErr)) ∧
    handleRequest reqSync behOneErr =
      (handleRequest reqSync behOneErr).filter
          (fun f => decide (f.type = FrameType.stream)) ++
        List.replicate (errFrameCount behOneErr)
          (errorSession reqSync (behCause behOneErr)) ∧
    (errorSession reqSync (behCause behOneErr)).type = FrameType.result ∧
    (errorSession reqSync (behCause behOneErr)).done = false ∧
    (errorSession reqSync (behCause behOneErr)).error = behCause behOneErr :=
  error_emits_result_frames reqSync behOneErr rfl rfl

/-- C3.  A request processed to completion emits a frame sequence ending
in the stream-done frame (type=Stream, done=true, empty message)
immediately followed by the final Result frame, every earlier frame being
a Stream frame with done=false; so the Result frame is unique, last, and
always preceded by the stream-done frame. -/
theorem stream_done_precedes_result (req : InferenceRequest)
    (beh : SubprocessBehavior) (hc : consistent req beh)
    (hf : behFails beh = false) :
    ∃ pre res, handleRequest req beh = pre ++ [emitStreamDone req, res] ∧
      (emitStreamDone req).type = FrameType.stream ∧
      (emitStreamDone req).done = true ∧
      (emitStreamDone req).message = "" ∧
      res.type = FrameType.result ∧
      res.done = true ∧
      (∀ f ∈ pre, f.type = FrameType.stream ∧ f.done = false) := by
  cases beh with
  | streamStartError e => simp [behFails] at hf
  | streaming deltas ending =>
    have hs : req.stream = true := hc
    cases ending with
    | recvError e => simp [behFails] at hf
    | eof =>
      refine ⟨deltas.map (deltaFrame req),
        responseProcessor req zeroUsage (finalBuf "" deltas)
          (finalAcc [] deltas) "" true,
        ?_, rfl, rfl, rfl, rfl, rfl, ?_⟩
      · rw [handleRequest_eof req deltas hs]
      · intro f hf2
        obtain ⟨d, _, hd⟩ := List.mem_map.mp hf2
        rw [← hd]
        exact ⟨rfl, rfl⟩
  | completionError e => simp [behFails] at hf
  | completionOk content toolCalls toolCallID usage =>
    have hs : req.stream = false := hc
    refine ⟨[], responseProcessor req usage content toolCalls toolCallID true,
      ?_, rfl, rfl, rfl, rfl, rfl, by simp⟩
    rw [handleRequest_completionOk req content toolCalls toolCallID usage hs]
    rfl

/-- C3 witness: the scenario S1 stream at a concrete request. -/
theorem stream_done_precedes_result_witness :
    ∃ pre res, handleRequest reqStream behS1 = pre ++ [emitStreamDone reqStream, res] ∧
      (emitStreamDone reqStream).type = FrameType.stream ∧
      (emitStreamDone reqStream).done = true ∧
      (emitStreamDone reqStream).message = "" ∧
      res.type = FrameType.result ∧
      res.done = true ∧
      (∀ f ∈ pre, f.type = FrameType.stream ∧ f.done = false) :=
  stream_done_precedes_result reqStream behS1 rfl rfl

/-! Tool-call aggregation. -/

/-- The first example delta: id and name. -/
def tcDelta1 : ToolCall := ⟨"t1", "f", ""⟩

/-- The second example delta: id and opening argument fragment. -/
def tcDelta2 : ToolCall := ⟨"t1", "", "\x7b\"x\":"⟩

/-- The third example delta: id and closing argument fragment. -/
def tcDelta3 : ToolCall := ⟨"t1", "", "1\x7d"⟩

/-- The example stream of the tool-call aggregation property. -/
def behToolCalls : SubprocessBehavior :=
  SubprocessBehavior.streaming
    [⟨"", [tcDelta1]⟩, ⟨"", [tcDelta2]⟩, ⟨"", [tcDelta3]⟩] StreamEnd.eof

/-- C2 counterexample: on the example deltas the final Result frame holds
the single tool call {id=t1, name="", arguments="1\x7d"} — each delta
replaced the stored value wholesale — and no frame ever carries the merged
value {name=f, arguments="\x7b\"x\":1\x7d"} the claim promises. -/
theorem toolcall_merge_counterexample :
    ((handleRequest reqStream behToolCalls).getLast?.map
        RunnerTaskResponse.toolCalls) = some [⟨"t1", "", "1\x7d"⟩] ∧
    ∀ f ∈ handleRequest reqStream behToolCalls, ∀ tc ∈ f.toolCalls,
      ¬(tc.name = "f" ∧ tc.arguments = "\x7b\"x\":1\x7d") := by
  decide

/-- C2 (amended).  Tool-call deltas are stored in an accumulator keyed by
tool-call id where each delta replaces the stored value wholesale, so on
the example deltas the final Result frame carries exactly one tool call,
equal to the last delta received for t1. -/
theorem toolcall_last_delta_wins :
    ((handleRequest reqStream behToolCalls).getLast?.map
        RunnerTaskResponse.toolCalls) = some [⟨"t1", "", "1\x7d"⟩] ∧
    ((handleRequest reqStream behToolCalls).getLast?.map
        RunnerTaskResponse.type) = some FrameType.result ∧
    ((handleRequest reqStream behToolCalls).getLast?.map
        RunnerTaskResponse.done) = some true := by
  decide

/-! Staleness and Stop. -/

/-- An instance that never saw activity: the zero time.Time. -/
def instZero : OllamaInferenceModelInstance := ⟨0, 5, none, false⟩

/-- C8 counterexample: with TTL 5 and the zero lastActivity at now=100,
Stale() reports true while the GetState stale field reports false; the
claimed zero-value exemption fails for Stale(). -/
theorem stale_zero_counterexample :
    OllamaInferenceModelInstance.Stale instZero 100 = true ∧
    OllamaInferenceModelInstance.getStateStale instZero 100 = false := by
  decide

/-- C8 (amended).  For non-zero lastActivity both Stale() and the GetState
stale field are true exactly when now - lastActivity exceeds the TTL; at
the zero value the GetState field is false while Stale() still applies the
bare TTL comparison. -/
theorem stale_iff_ttl_exceeded (last ttl now : Int) (cmd : Option Int)
    (alive : Bool) :
    (OllamaInferenceModelInstance.Stale ⟨last, ttl, cmd, alive⟩ now = true ↔
      now - last > ttl) ∧
    (last = 0 →
      OllamaInferenceModelInstance.getStateStale ⟨last, ttl, cmd, alive⟩ now = false) ∧
    (last ≠ 0 →
      (OllamaInferenceModelInstance.getStateStale ⟨last, ttl, cmd, alive⟩ now = true ↔
        now - last > ttl)) := by
  refine ⟨?_, ?_, ?_⟩
  · simp [OllamaInferenceModelInstance.Stale]
  · intro h
    simp [OllamaInferenceModelInstance.getStateStale, h]
  · intro h
    simp only [OllamaInferenceModelInstance.getStateStale, if_neg h]
    by_cases httl : now - last > ttl
    · simp [httl]
    · simp [httl]

/-- C9.  Stop returns the no-process error when no subprocess was ever
launched, and succeeds on an instance whose subprocess has already exited
(killProcessTree, modelled from the spec, reports no error on a dead
tree). -/
theorem stop_error_and_idempotent (last ttl : Int) (pid : Int)
    (alive : Bool) :
    OllamaInferenceModelInstance.Stop ⟨last, ttl, none, alive⟩ =
      Except.error "no Ollama process to stop" ∧
    OllamaInferenceModelInstance.Stop ⟨last, ttl, some pid, false⟩ =
      Except.ok () := by
  exact ⟨rfl, rfl⟩

end Helix
